import Mathlib

/-!
Verification development for the ncov-tools integration script
(src/scripts/ncov-tools.py).  The script links per-sample variant and
consensus files into a shared data directory, rewrites consensus FASTA
headers, detects negative-control samples, generates the config.yaml for
the downstream tool, and can relocate results.

The embedding below follows the Python source line by line.  Files are
modelled as an association list from path to content (a hard link copies
the content; the in-place rewrite performed through fileinput replaces
the destination file, which is faithful because fileinput with
inplace=True writes a fresh file, and no other mutation is performed by
the script).  Fallible operations return Except: os.link raises
FileExistsError when the destination exists and FileNotFoundError when
the source is missing, and evaluating an unbound Python name raises
NameError.
-/

/-- Python iteration over the lines of a file: each chunk keeps its
trailing newline, and a final chunk without a newline is kept as is. -/
def pyLinesAux : List Char → List Char → List String
  | [], acc => if acc.isEmpty then [] else [String.mk acc.reverse]
  | c :: cs, acc =>
    if c = '\n' then String.mk (acc.reverse ++ ['\n']) :: pyLinesAux cs []
    else pyLinesAux cs (c :: acc)

/-- Lines of a file content, Python style (keepends). -/
def pyLines (s : String) : List String := pyLinesAux s.data []

/-- Python str.split with a one-character separator (always returns a
nonempty list; an empty string splits to a single empty field). -/
def pySplitAux (sep : Char) : List Char → List Char → List String
  | [], acc => [String.mk acc.reverse]
  | c :: cs, acc =>
    if c = sep then String.mk acc.reverse :: pySplitAux sep cs []
    else pySplitAux sep cs (c :: acc)

/-- Python str.split with a one-character separator. -/
def pySplit (sep : Char) (s : String) : List String := pySplitAux sep s.data []

/-- Python str.startswith for the chars of the pattern. -/
def pyStartsWithAux : List Char → List Char → Bool
  | [], _ => true
  | _ :: _, [] => false
  | p :: ps, c :: cs => p = c && pyStartsWithAux ps cs

/-- Python str.startswith. -/
def pyStartsWith (s pat : String) : Bool := pyStartsWithAux pat.data s.data

/-- Python: sample = path.split('/')[0]. -/
def firstSeg (p : String) : String := (pySplit '/' p).headD p

/-- The fileinput/print rewrite of link_ivar lines 23-29: a line that
starts with > is replaced by >{sample} and printed with end set to a
newline; any other line is printed unchanged with end set to a newline,
although the line read from the file still carries its own newline. -/
def rewriteFasta (sample content : String) : String :=
  String.join ((pyLines content).map (fun line =>
    if pyStartsWith line ">" then ">" ++ sample ++ "\n" else line ++ "\n"))

/-- Filesystem model: association list from path to file content.
The head entry for a path shadows older entries. -/
abbrev FS := List (String × String)

/-- Lookup of a path in the filesystem. -/
def fsLookup : FS → String → Option String
  | [], _ => none
  | (q, c) :: fs, p => if p = q then some c else fsLookup fs p

/-- os.path.exists. -/
def pathExists (fs : FS) (p : String) : Bool := (fsLookup fs p).isSome

/-- Errors the script can raise. -/
inductive Err where
  | fileExists
  | fileNotFound
  | nameError (n : String)
deriving DecidableEq

/-- os.link src dst: FileExistsError if dst exists, FileNotFoundError if
src is missing, otherwise dst now has the content of src. -/
def osLink (fs : FS) (src dst : String) : Except Err FS :=
  if pathExists fs dst then .error .fileExists
  else
    match fsLookup fs src with
    | some c => .ok ((dst, c) :: fs)
    | none => .error .fileNotFound

/-- The in-place fileinput rewrite of the consensus file at path p. -/
def rewriteAt (fs : FS) (p sample : String) : Except Err FS :=
  match fsLookup fs p with
  | some c => .ok ((p, rewriteFasta sample c) :: fs)
  | none => .error .fileNotFound

/-- Destination path for an iVar variants file (line 14). -/
def tsvPath (root v : String) : String :=
  root ++ "/" ++ firstSeg v ++ ".variants.tsv"

/-- Destination path for a consensus file (lines 20 and 56). -/
def consPath (root c : String) : String :=
  root ++ "/" ++ firstSeg c ++ ".consensus.fasta"

/-- Destination path for a FreeBayes variants file (line 44). -/
def vcfPath (root v : String) : String :=
  root ++ "/" ++ firstSeg v ++ ".variants.vcf"

/-- Expected FreeBayes variants source (line 38). -/
def fbVarSrc (v : String) : String :=
  firstSeg v ++ "/freebayes/" ++ firstSeg v ++ ".variants.norm.vcf"

/-- Expected FreeBayes consensus source (line 50). -/
def fbConsSrc (c : String) : String :=
  firstSeg c ++ "/freebayes/" ++ firstSeg c ++ ".consensus.fasta"

/-- One iteration of the variants loop of link_ivar (lines 12-16). -/
def ivarVarStep (root : String) (replace : Bool) (v : String) (fs : FS) : Except Err FS :=
  if !(pathExists fs (tsvPath root v)) || replace then osLink fs v (tsvPath root v)
  else .ok fs

/-- Variants loop of link_ivar (lines 12-16). -/
def ivarVarLoop (root : String) (replace : Bool) : List String → FS → Except Err FS
  | [], fs => .ok fs
  | v :: rest, fs =>
    match ivarVarStep root replace v fs with
    | .error e => .error e
    | .ok fs2 => ivarVarLoop root replace rest fs2

/-- The conditional link of one consensus file (lines 20-22). -/
def ivarConsStep (root : String) (replace : Bool) (c : String) (fs : FS) : Except Err FS :=
  if !(pathExists fs (consPath root c)) || replace then osLink fs c (consPath root c)
  else .ok fs

/-- Consensus loop of link_ivar (lines 18-29): conditional link, then the
unconditional in-place header rewrite. -/
def ivarConsLoop (root : String) (replace : Bool) : List String → FS → Except Err FS
  | [], fs => .ok fs
  | c :: rest, fs =>
    match ivarConsStep root replace c fs with
    | .error e => .error e
    | .ok fs2 =>
      match rewriteAt fs2 (consPath root c) (firstSeg c) with
      | .error e => .error e
      | .ok fs3 => ivarConsLoop root replace rest fs3

/-- link_ivar(root, replace): link variants, then consensus files, taking
the sample name as the first path segment of each input path. -/
def link_ivar (root : String) (replace : Bool) (variantsIn consensusIn : List String)
    (fs : FS) : Except Err FS :=
  match ivarVarLoop root replace variantsIn fs with
  | .error e => .error e
  | .ok fs2 => ivarConsLoop root replace consensusIn fs2

/-- Variants loop of link_freebayes (lines 36-46): if the expected
FreeBayes file of any sample is missing, call link_ivar(root, True) and
break out of this loop. -/
def fbVarLoop (root : String) (variantsIn consensusIn : List String) :
    List String → FS → Except Err FS
  | [], fs => .ok fs
  | v :: rest, fs =>
    if !(pathExists fs (fbVarSrc v)) then link_ivar root true variantsIn consensusIn fs
    else
      match (if !(pathExists fs (vcfPath root v)) then osLink fs (fbVarSrc v) (vcfPath root v) else .ok fs) with
      | .error e => .error e
      | .ok fs2 => fbVarLoop root variantsIn consensusIn rest fs2

/-- Consensus loop of link_freebayes (lines 48-65): same downgrade on a
missing FreeBayes consensus; a linked consensus gets its header
rewritten in place. -/
def fbConsLoop (root : String) (variantsIn consensusIn : List String) :
    List String → FS → Except Err FS
  | [], fs => .ok fs
  | c :: rest, fs =>
    if !(pathExists fs (fbConsSrc c)) then link_ivar root true variantsIn consensusIn fs
    else
      match (if !(pathExists fs (consPath root c)) then osLink fs (fbConsSrc c) (consPath root c) else .ok fs) with
      | .error e => .error e
      | .ok fs2 =>
        match rewriteAt fs2 (consPath root c) (firstSeg c) with
        | .error e => .error e
        | .ok fs3 => fbConsLoop root variantsIn consensusIn rest fs3

/-- link_freebayes(root): the variants loop, then the consensus loop. -/
def link_freebayes (root : String) (variantsIn consensusIn : List String)
    (fs : FS) : Except Err FS :=
  match fbVarLoop root variantsIn consensusIn variantsIn fs with
  | .error e => .error e
  | .ok fs2 => fbConsLoop root variantsIn consensusIn consensusIn fs2

/-! ### Basic facts about the filesystem model -/

/-- Existence of a path in a filesystem extended by one entry. -/
theorem pathExists_cons (q c p : String) (fs : FS) :
    pathExists ((q, c) :: fs) p = true ↔ p = q ∨ pathExists fs p = true := by
  by_cases h : p = q <;> simp [pathExists, fsLookup, h]

/-- Growth order on filesystems: every existing path still exists. -/
def fsLe (fs fs2 : FS) : Prop :=
  ∀ p, pathExists fs p = true → pathExists fs2 p = true

theorem fsLe_refl (fs : FS) : fsLe fs fs := fun _ h => h

theorem fsLe_trans {a b c : FS} (h1 : fsLe a b) (h2 : fsLe b c) : fsLe a c :=
  fun p h => h2 p (h1 p h)

theorem fsLe_cons (q c : String) (fs : FS) : fsLe fs ((q, c) :: fs) := by
  intro p h
  exact (pathExists_cons q c p fs).mpr (Or.inr h)

theorem osLink_le {fs : FS} {src dst : String} {fs2 : FS}
    (h : osLink fs src dst = .ok fs2) : fsLe fs fs2 := by
  unfold osLink at h
  split at h
  · exact absurd h (by simp)
  · split at h
    · cases h; exact fsLe_cons _ _ _
    · exact absurd h (by simp)

theorem osLink_ok_dst {fs : FS} {src dst : String} {fs2 : FS}
    (h : osLink fs src dst = .ok fs2) : pathExists fs2 dst = true := by
  unfold osLink at h
  split at h
  · exact absurd h (by simp)
  · split at h
    · cases h; exact (pathExists_cons _ _ _ _).mpr (Or.inl rfl)
    · exact absurd h (by simp)

theorem rewriteAt_le {fs : FS} {p sample : String} {fs2 : FS}
    (h : rewriteAt fs p sample = .ok fs2) : fsLe fs fs2 := by
  unfold rewriteAt at h
  split at h
  · cases h; exact fsLe_cons _ _ _
  · exact absurd h (by simp)

theorem ivarVarStep_le {root : String} {replace : Bool} {v : String} {fs fs2 : FS}
    (h : ivarVarStep root replace v fs = .ok fs2) : fsLe fs fs2 := by
  unfold ivarVarStep at h
  split at h
  · exact osLink_le h
  · cases h; exact fsLe_refl _

theorem ivarConsStep_le {root : String} {replace : Bool} {c : String} {fs fs2 : FS}
    (h : ivarConsStep root replace c fs = .ok fs2) : fsLe fs fs2 := by
  unfold ivarConsStep at h
  split at h
  · exact osLink_le h
  · cases h; exact fsLe_refl _

theorem ivarVarLoop_le (root : String) (replace : Bool) :
    ∀ (vs : List String) (fs fs2 : FS),
      ivarVarLoop root replace vs fs = .ok fs2 → fsLe fs fs2 := by
  intro vs
  induction vs with
  | nil => intro fs fs2 h; cases h; exact fsLe_refl _
  | cons a rest ih =>
    intro fs fs2 h
    rw [ivarVarLoop] at h
    cases hstep : ivarVarStep root replace a fs with
    | error e => rw [hstep] at h; cases h
    | ok fsm =>
      rw [hstep] at h
      exact fsLe_trans (ivarVarStep_le hstep) (ih fsm fs2 h)

theorem ivarConsLoop_le (root : String) (replace : Bool) :
    ∀ (cs : List String) (fs fs2 : FS),
      ivarConsLoop root replace cs fs = .ok fs2 → fsLe fs fs2 := by
  intro cs
  induction cs with
  | nil => intro fs fs2 h; cases h; exact fsLe_refl _
  | cons a rest ih =>
    intro fs fs2 h
    rw [ivarConsLoop] at h
    cases hstep : ivarConsStep root replace a fs with
    | error e => rw [hstep] at h; cases h
    | ok fsm =>
      simp only [hstep] at h
      cases hrw : rewriteAt fsm (consPath root a) (firstSeg a) with
      | error e => simp only [hrw] at h; cases h
      | ok fsr =>
        simp only [hrw] at h
        exact fsLe_trans (ivarConsStep_le hstep)
          (fsLe_trans (rewriteAt_le hrw) (ih fsr fs2 h))

theorem link_ivar_le {root : String} {replace : Bool} {vIn cIn : List String}
    {fs fs2 : FS} (h : link_ivar root replace vIn cIn fs = .ok fs2) : fsLe fs fs2 := by
  unfold link_ivar at h
  cases hv : ivarVarLoop root replace vIn fs with
  | error e => rw [hv] at h; cases h
  | ok fsm =>
    rw [hv] at h
    exact fsLe_trans (ivarVarLoop_le root replace vIn fs fsm hv)
      (ivarConsLoop_le root replace cIn fsm fs2 h)

theorem fbVarLoop_le (root : String) (vIn cIn : List String) :
    ∀ (rem : List String) (fs fs2 : FS),
      fbVarLoop root vIn cIn rem fs = .ok fs2 → fsLe fs fs2 := by
  intro rem
  induction rem with
  | nil => intro fs fs2 h; cases h; exact fsLe_refl _
  | cons a rest ih =>
    intro fs fs2 h
    rw [fbVarLoop] at h
    split at h
    · exact link_ivar_le h
    · cases hstep : (if !(pathExists fs (vcfPath root a)) then osLink fs (fbVarSrc a) (vcfPath root a) else .ok fs) with
      | error e => rw [hstep] at h; cases h
      | ok fsm =>
        rw [hstep] at h
        have hle : fsLe fs fsm := by
          revert hstep
          split
          · exact fun hstep => osLink_le hstep
          · intro hstep; cases hstep; exact fsLe_refl _
        exact fsLe_trans hle (ih fsm fs2 h)

theorem fbConsLoop_le (root : String) (vIn cIn : List String) :
    ∀ (rem : List String) (fs fs2 : FS),
      fbConsLoop root vIn cIn rem fs = .ok fs2 → fsLe fs fs2 := by
  intro rem
  induction rem with
  | nil => intro fs fs2 h; cases h; exact fsLe_refl _
  | cons a rest ih =>
    intro fs fs2 h
    rw [fbConsLoop] at h
    split at h
    · exact link_ivar_le h
    · cases hstep : (if !(pathExists fs (consPath root a)) then osLink fs (fbConsSrc a) (consPath root a) else .ok fs) with
      | error e => rw [hstep] at h; cases h
      | ok fsm =>
        simp only [hstep] at h
        cases hrw : rewriteAt fsm (consPath root a) (firstSeg a) with
        | error e => simp only [hrw] at h; cases h
        | ok fsr =>
          simp only [hrw] at h
          have hle : fsLe fs fsm := by
            revert hstep
            split
            · exact fun hstep => osLink_le hstep
            · intro hstep; cases hstep; exact fsLe_refl _
          exact fsLe_trans hle (fsLe_trans (rewriteAt_le hrw) (ih fsr fs2 h))

/-! ### The forced-replace re-run links every variants input -/

theorem ivarVarLoop_true_links (root : String) :
    ∀ (vs : List String) (fs fs2 : FS),
      ivarVarLoop root true vs fs = .ok fs2 →
      ∀ v, v ∈ vs → pathExists fs2 (tsvPath root v) = true := by
  intro vs
  induction vs with
  | nil => intro fs fs2 h v hv; cases hv
  | cons a rest ih =>
    intro fs fs2 h v hv
    rw [ivarVarLoop] at h
    cases hstep : ivarVarStep root true a fs with
    | error e => rw [hstep] at h; cases h
    | ok fsm =>
      rw [hstep] at h
      rcases List.mem_cons.mp hv with heq | hmem
      · subst heq
        have hl : osLink fs v (tsvPath root v) = .ok fsm := by
          unfold ivarVarStep at hstep
          simpa using hstep
        exact ivarVarLoop_le root true rest fsm fs2 h _ (osLink_ok_dst hl)
      · exact ih fsm fs2 h v hmem

theorem link_ivar_true_links {root : String} {vIn cIn : List String} {fs fs2 : FS}
    (h : link_ivar root true vIn cIn fs = .ok fs2) :
    ∀ v, v ∈ vIn → pathExists fs2 (tsvPath root v) = true := by
  intro v hv
  unfold link_ivar at h
  cases hvl : ivarVarLoop root true vIn fs with
  | error e => rw [hvl] at h; cases h
  | ok fsm =>
    rw [hvl] at h
    exact ivarConsLoop_le root true cIn fsm fs2 h _
      (ivarVarLoop_true_links root vIn fs fsm hvl v hv)

theorem fbVarLoop_downgrade (root : String) (vIn cIn : List String) :
    ∀ (rem : List String) (fs fs2 : FS),
      fbVarLoop root vIn cIn rem fs = .ok fs2 →
      (∃ v, v ∈ rem ∧ pathExists fs2 (fbVarSrc v) = false) →
      ∀ w, w ∈ vIn → pathExists fs2 (tsvPath root w) = true := by
  intro rem
  induction rem with
  | nil =>
    intro fs fs2 h hmiss w hw
    rcases hmiss with ⟨v, hv, _⟩
    cases hv
  | cons a rest ih =>
    intro fs fs2 h hmiss w hw
    rw [fbVarLoop] at h
    by_cases hsrc : pathExists fs (fbVarSrc a) = true
    · rw [if_neg (by simp [hsrc])] at h
      cases hstep : (if !(pathExists fs (vcfPath root a)) then osLink fs (fbVarSrc a) (vcfPath root a) else .ok fs) with
      | error e => rw [hstep] at h; cases h
      | ok fsm =>
        simp only [hstep] at h
        have hlem : fsLe fs fsm := by
          revert hstep
          split
          · exact fun hstep => osLink_le hstep
          · intro hstep; cases hstep; exact fsLe_refl _
        have hle2 : fsLe fsm fs2 := fbVarLoop_le root vIn cIn rest fsm fs2 h
        rcases hmiss with ⟨v, hv, hvf⟩
        rcases List.mem_cons.mp hv with heq | hmem
        · subst heq
          have : pathExists fs2 (fbVarSrc v) = true := hle2 _ (hlem _ hsrc)
          rw [this] at hvf; cases hvf
        · exact ih fsm fs2 h ⟨v, hmem, hvf⟩ w hw
    · rw [if_pos (by simp [Bool.not_eq_true] at hsrc; simp [hsrc])] at h
      exact link_ivar_true_links h w hw

/-- C2: in fallback mode, if the FreeBayes variants file of at least one
sample is absent (at the end of a pass that completed, and existence only
grows during a pass), then every sample of the variants input list ends
up with its primary-source link {root}/{sample}.variants.tsv. -/
theorem link_freebayes_downgrade_links_all_tsv
    (root : String) (vIn cIn : List String) (fs fs2 : FS)
    (h : link_freebayes root vIn cIn fs = .ok fs2)
    (hmiss : ∃ v, v ∈ vIn ∧ pathExists fs2 (fbVarSrc v) = false) :
    ∀ w, w ∈ vIn → pathExists fs2 (tsvPath root w) = true := by
  intro w hw
  unfold link_freebayes at h
  cases hvl : fbVarLoop root vIn cIn vIn fs with
  | error e => rw [hvl] at h; cases h
  | ok fsm =>
    rw [hvl] at h
    have hcons : fsLe fsm fs2 := fbConsLoop_le root vIn cIn cIn fsm fs2 h
    rcases hmiss with ⟨v, hv, hvf⟩
    have hvfm : pathExists fsm (fbVarSrc v) = false := by
      cases hm : pathExists fsm (fbVarSrc v) with
      | false => rfl
      | true => rw [hcons _ hm] at hvf; cases hvf
    exact hcons _ (fbVarLoop_downgrade root vIn cIn vIn fs fsm hvl ⟨v, hv, hvfm⟩ w hw)

/-- Witness for C2 at a concrete run: two samples, the FreeBayes variants
file of sample B missing; after the completed pass both samples carry a
.variants.tsv link. -/
theorem link_freebayes_downgrade_links_all_tsv_witness :
    ∃ fs2, link_freebayes "data" ["A/iv.tsv", "B/iv.tsv"] ["A/cons.fa", "B/cons.fa"]
      [("A/iv.tsv", "va"), ("B/iv.tsv", "vb"),
       ("A/cons.fa", ">h\nAA\n"), ("B/cons.fa", ">h\nCC\n"),
       ("A/freebayes/A.variants.norm.vcf", "fva"),
       ("A/freebayes/A.consensus.fasta", ">x\nAA\n"),
       ("B/freebayes/B.consensus.fasta", ">y\nCC\n")] = .ok fs2 ∧
      pathExists fs2 (tsvPath "data" "A/iv.tsv") = true ∧
      pathExists fs2 (tsvPath "data" "B/iv.tsv") = true := by
  have happ := link_freebayes_downgrade_links_all_tsv "data" ["A/iv.tsv", "B/iv.tsv"]
    ["A/cons.fa", "B/cons.fa"]
    [("A/iv.tsv", "va"), ("B/iv.tsv", "vb"),
     ("A/cons.fa", ">h\nAA\n"), ("B/cons.fa", ">h\nCC\n"),
     ("A/freebayes/A.variants.norm.vcf", "fva"),
     ("A/freebayes/A.consensus.fasta", ">x\nAA\n"),
     ("B/freebayes/B.consensus.fasta", ">y\nCC\n")] _ rfl
    ⟨"B/iv.tsv", by decide, by decide⟩
  exact ⟨_, rfl, happ "A/iv.tsv" (by decide), happ "B/iv.tsv" (by decide)⟩

/-! ### Concrete runs exhibiting the header-rewrite and replace behavior -/

deriving instance DecidableEq for Except

/-- C1: linking the consensus file of sample A whose source content is the
two source lines >h and ACGT.  The header line does become >A, but the
non-header line is not byte-identical to the source line: the print call
of the rewrite appends a second newline to the still newline-terminated
line, so the destination has a third, blank line with no counterpart in
the source. -/
theorem link_ivar_nonheader_gains_blank_line :
    ((link_ivar "data" false [] ["A/cons.fa"] [("A/cons.fa", ">h\nACGT\n")]).toOption.bind
        (fun fs => fsLookup fs "data/A.consensus.fasta")) = some ">A\nACGT\n\n" ∧
      pyLines ">A\nACGT\n\n" = [">A\n", "ACGT\n", "\n"] ∧
      pyLines ">h\nACGT\n" = [">h\n", "ACGT\n"] := by
  refine ⟨?_, by decide, by decide⟩
  decide

/-- C3: fallback pass over two samples with the FreeBayes consensus of
sample B missing.  The variants pass links both FreeBayes variant files,
the consensus pass links the consensus of A, then hits the missing file
of B and re-runs link_ivar with replace forced true; that re-run calls
os.link onto the already existing destination data/A.consensus.fasta and
raises FileExistsError instead of completing. -/
theorem link_freebayes_downgrade_raises_fileExists :
    link_freebayes "data" ["A/iv.tsv", "B/iv.tsv"] ["A/cons.fa", "B/cons.fa"]
      [("A/iv.tsv", "va"), ("B/iv.tsv", "vb"),
       ("A/cons.fa", ">h\nAA\n"), ("B/cons.fa", ">h\nCC\n"),
       ("A/freebayes/A.variants.norm.vcf", "fva"),
       ("B/freebayes/B.variants.norm.vcf", "fvb"),
       ("A/freebayes/A.consensus.fasta", ">x\nAA\n")] = .error .fileExists := by
  decide

/-- C4: linking the same sample twice with replace false.  The second
invocation does skip the os.link call, but the in-place rewrite runs
unconditionally and appends one more newline to every non-header line,
so the content of the destination changes between the two passes. -/
theorem link_ivar_second_pass_changes_consensus :
    ((link_ivar "data" false [] ["A/cons.fa"] [("A/cons.fa", ">h\nACGT\n")]).toOption.bind
        (fun fs1 =>
          (link_ivar "data" false [] ["A/cons.fa"] fs1).toOption.bind (fun fs2 =>
            some (fsLookup fs1 "data/A.consensus.fasta",
              fsLookup fs2 "data/A.consensus.fasta")))) =
      some (some ">A\nACGT\n\n", some ">A\nACGT\n\n\n\n") ∧
      (">A\nACGT\n\n" : String) ≠ ">A\nACGT\n\n\n\n" := by
  refine ⟨?_, by decide⟩
  decide

/-- C5 counterexample: fallback pass over two samples where the FreeBayes
variants file of B is missing but both FreeBayes consensus files exist.
The pass completes, and sample A ends up with two materialized variants
artifacts in the data directory: data/A.variants.vcf (linked before the
downgrade) and data/A.variants.tsv (linked by the forced re-run). -/
theorem link_freebayes_two_variants_artifacts :
    ((link_freebayes "data" ["A/iv.tsv", "B/iv.tsv"] ["A/cons.fa", "B/cons.fa"]
      [("A/iv.tsv", "va"), ("B/iv.tsv", "vb"),
       ("A/cons.fa", ">h\nAA\n"), ("B/cons.fa", ">h\nCC\n"),
       ("A/freebayes/A.variants.norm.vcf", "fva"),
       ("A/freebayes/A.consensus.fasta", ">x\nAA\n"),
       ("B/freebayes/B.consensus.fasta", ">y\nCC\n")]).toOption.map
      (fun fs => pathExists fs "data/A.variants.vcf" && pathExists fs "data/A.variants.tsv")) =
      some true := by
  decide

/-! ### link_ivar creates only .variants.tsv and .consensus.fasta paths -/

theorem osLink_created {fs : FS} {src dst : String} {fs2 : FS}
    (h : osLink fs src dst = .ok fs2) :
    ∀ p, pathExists fs2 p = true → pathExists fs p = true ∨ p = dst := by
  intro p hp
  unfold osLink at h
  split at h
  · exact absurd h (by simp)
  · split at h
    · cases h
      rcases (pathExists_cons _ _ _ _).mp hp with h1 | h1
      · exact Or.inr h1
      · exact Or.inl h1
    · exact absurd h (by simp)

theorem rewriteAt_created {fs : FS} {q sample : String} {fs2 : FS}
    (h : rewriteAt fs q sample = .ok fs2) :
    ∀ p, pathExists fs2 p = true → pathExists fs p = true := by
  intro p hp
  unfold rewriteAt at h
  cases hq : fsLookup fs q with
  | none => rw [hq] at h; cases h
  | some c =>
    rw [hq] at h
    cases h
    rcases (pathExists_cons _ _ _ _).mp hp with h1 | h1
    · subst h1; simp [pathExists, hq]
    · exact h1

theorem ivarVarLoop_created (root : String) (replace : Bool) :
    ∀ (vs : List String) (fs fs2 : FS),
      ivarVarLoop root replace vs fs = .ok fs2 →
      ∀ p, pathExists fs2 p = true →
        pathExists fs p = true ∨ ∃ v, v ∈ vs ∧ p = tsvPath root v := by
  intro vs
  induction vs with
  | nil => intro fs fs2 h p hp; cases h; exact Or.inl hp
  | cons a rest ih =>
    intro fs fs2 h p hp
    rw [ivarVarLoop] at h
    cases hstep : ivarVarStep root replace a fs with
    | error e => rw [hstep] at h; cases h
    | ok fsm =>
      rw [hstep] at h
      rcases ih fsm fs2 h p hp with h1 | ⟨v, hv, he⟩
      · have hstep2 : pathExists fsm p = true →
            pathExists fs p = true ∨ p = tsvPath root a := by
          unfold ivarVarStep at hstep
          revert hstep
          split
          · exact fun hstep hm => osLink_created hstep p hm
          · intro hstep hm; cases hstep; exact Or.inl hm
        rcases hstep2 h1 with h2 | h2
        · exact Or.inl h2
        · exact Or.inr ⟨a, List.mem_cons_self .., h2⟩
      · exact Or.inr ⟨v, List.mem_cons_of_mem _ hv, he⟩

theorem ivarConsLoop_created (root : String) (replace : Bool) :
    ∀ (cs : List String) (fs fs2 : FS),
      ivarConsLoop root replace cs fs = .ok fs2 →
      ∀ p, pathExists fs2 p = true →
        pathExists fs p = true ∨ ∃ c, c ∈ cs ∧ p = consPath root c := by
  intro cs
  induction cs with
  | nil => intro fs fs2 h p hp; cases h; exact Or.inl hp
  | cons a rest ih =>
    intro fs fs2 h p hp
    rw [ivarConsLoop] at h
    cases hstep : ivarConsStep root replace a fs with
    | error e => rw [hstep] at h; cases h
    | ok fsm =>
      simp only [hstep] at h
      cases hrw : rewriteAt fsm (consPath root a) (firstSeg a) with
      | error e => simp only [hrw] at h; cases h
      | ok fsr =>
        simp only [hrw] at h
        rcases ih fsr fs2 h p hp with h1 | ⟨c, hc, he⟩
        · have h2 := rewriteAt_created hrw p h1
          have hstep2 : pathExists fsm p = true →
              pathExists fs p = true ∨ p = consPath root a := by
            unfold ivarConsStep at hstep
            revert hstep
            split
            · exact fun hstep hm => osLink_created hstep p hm
            · intro hstep hm; cases hstep; exact Or.inl hm
          rcases hstep2 h2 with h3 | h3
          · exact Or.inl h3
          · exact Or.inr ⟨a, List.mem_cons_self .., h3⟩
        · exact Or.inr ⟨c, List.mem_cons_of_mem _ hc, he⟩

theorem link_ivar_created {root : String} {replace : Bool} {vIn cIn : List String}
    {fs fs2 : FS} (h : link_ivar root replace vIn cIn fs = .ok fs2) :
    ∀ p, pathExists fs2 p = true →
      pathExists fs p = true ∨ (∃ v, v ∈ vIn ∧ p = tsvPath root v) ∨
        ∃ c, c ∈ cIn ∧ p = consPath root c := by
  intro p hp
  unfold link_ivar at h
  cases hvl : ivarVarLoop root replace vIn fs with
  | error e => rw [hvl] at h; cases h
  | ok fsm =>
    rw [hvl] at h
    rcases ivarConsLoop_created root replace cIn fsm fs2 h p hp with h1 | h1
    · rcases ivarVarLoop_created root replace vIn fs fsm hvl p h1 with h2 | h2
      · exact Or.inl h2
      · exact Or.inr (Or.inl h2)
    · exact Or.inr (Or.inr h1)

/-! ### Distinct artifact suffixes give distinct paths -/

theorem getLast_append_ne {a b sx sy : String} (cx cy : Char)
    (hx : sx.data.reverse.head? = some cx) (hy : sy.data.reverse.head? = some cy)
    (hne : cx ≠ cy) : a ++ sx ≠ b ++ sy := by
  intro h
  apply hne
  have hd : a.data ++ sx.data = b.data ++ sy.data := congrArg String.data h
  have hrev := congrArg (fun l => List.reverse l) hd
  simp only [List.reverse_append] at hrev
  have hh := congrArg List.head? hrev
  rw [List.head?_append, List.head?_append, hx, hy] at hh
  simpa using hh

theorem vcf_path_ne_tsv_path (a b : String) :
    a ++ ".variants.vcf" ≠ b ++ ".variants.tsv" :=
  getLast_append_ne 'f' 'v' (by decide) (by decide) (by decide)

theorem vcf_path_ne_cons_path (a b : String) :
    a ++ ".variants.vcf" ≠ b ++ ".consensus.fasta" :=
  getLast_append_ne 'f' 'a' (by decide) (by decide) (by decide)

/-- C5 amended, provable part: a primary-mode pass (link_ivar) never
creates a .variants.vcf artifact, so a sample that had no
{root}/{sample}.variants.vcf before the pass still has none after it;
its only variants artifact is then the .variants.tsv link.  (The
counterexample shows the original at-most-one invariant fails for the
variants kind after a fallback pass that downgraded.) -/
theorem link_ivar_creates_no_vcf (root : String) (replace : Bool)
    (vIn cIn : List String) (fs fs2 : FS) (s : String)
    (h : link_ivar root replace vIn cIn fs = .ok fs2)
    (h0 : pathExists fs (root ++ "/" ++ s ++ ".variants.vcf") = false) :
    pathExists fs2 (root ++ "/" ++ s ++ ".variants.vcf") = false := by
  cases hq : pathExists fs2 (root ++ "/" ++ s ++ ".variants.vcf") with
  | false => rfl
  | true =>
    rcases link_ivar_created h _ hq with h1 | ⟨v, _, he⟩ | ⟨c, _, he⟩
    · rw [h1] at h0; cases h0
    · exact absurd he (by unfold tsvPath; exact vcf_path_ne_tsv_path _ _)
    · exact absurd he (by unfold consPath; exact vcf_path_ne_cons_path _ _)

/-- Witness for the amended C5 statement at a concrete primary-mode run. -/
theorem link_ivar_creates_no_vcf_witness :
    ∃ fs2, link_ivar "data" false ["A/iv.tsv"] [] [("A/iv.tsv", "va")] = .ok fs2 ∧
      pathExists fs2 ("data" ++ "/" ++ "A" ++ ".variants.vcf") = false := by
  have happ := link_ivar_creates_no_vcf "data" false ["A/iv.tsv"] []
    [("A/iv.tsv", "va")] _ "A" rfl (by decide)
  exact ⟨_, rfl, happ⟩

/-! ### Negative-control detection (set_up lines 91-99) -/

/-- id = line.split(",")[0]: the leading comma-delimited field. -/
def firstField (line : String) : String := (pySplit ',' line).headD line

/-- id.startswith(neg_names) for a tuple of prefixes. -/
def isNegMatch (negNames : List String) (id : String) : Bool :=
  negNames.any (fun n => pyStartsWith id n)

/-- The set neg_samples: discard the first manifest line (fh.readline()),
then for every remaining line add its leading field when it starts with
one of the negative-control prefixes. -/
def negControls (manifest : List String) (negNames : List String) : Finset String :=
  match manifest with
  | [] => ∅
  | _ :: rows =>
    rows.foldl (fun acc line =>
      if isNegMatch negNames (firstField line) then insert (firstField line) acc else acc) ∅

theorem negControls_fold (negNames : List String) :
    ∀ (rows : List String) (acc : Finset String),
      rows.foldl (fun acc line =>
          if isNegMatch negNames (firstField line) then insert (firstField line) acc
          else acc) acc =
        acc ∪ ((rows.map firstField).filter (isNegMatch negNames)).toFinset := by
  intro rows
  induction rows with
  | nil => intro acc; simp
  | cons r rs ih =>
    intro acc
    rw [List.foldl_cons, ih]
    by_cases hr : isNegMatch negNames (firstField r) = true
    · simp [hr, Finset.insert_union]
    · simp [hr]

/-- C7: the detector discards the header line, keys every remaining row
by its leading comma-delimited field, and returns the deduplicated set
of fields matching a negative-control prefix; a header-only manifest
yields the empty set, and the concrete three-row manifest of the spec
yields exactly the two negative controls. -/
theorem negControls_spec :
    (∀ (hdr : String) (rows negNames : List String),
      negControls (hdr :: rows) negNames =
        ((rows.map firstField).filter (isNegMatch negNames)).toFinset) ∧
    (∀ (hdr : String) (negNames : List String), negControls [hdr] negNames = ∅) ∧
    negControls ["sample,stuff\n", "NEG1,a\n", "SAMPLE2,b\n", "neg_blank,c\n"]
        ["NEG", "neg"] =
      ({"NEG1", "neg_blank"} : Finset String) := by
  have hgen : ∀ (hdr : String) (rows negNames : List String),
      negControls (hdr :: rows) negNames =
        ((rows.map firstField).filter (isNegMatch negNames)).toFinset := by
    intro hdr rows negNames
    have hred : negControls (hdr :: rows) negNames =
        rows.foldl (fun acc line =>
          if isNegMatch negNames (firstField line) then insert (firstField line) acc
          else acc) ∅ := rfl
    rw [hred, negControls_fold]
    simp
  refine ⟨hgen, fun hdr negNames => by rw [hgen]; simp, ?_⟩
  rw [hgen]
  decide

/-! ### Pangolin version resolution (set_up lines 74-81) -/

/-- Membership of a character in the char set of Python str.strip. -/
def pyCharIn (cs : List Char) (c : Char) : Bool := cs.any (fun x => c = x)

/-- Python str.strip(chars): remove the characters of chars from both
ends of the string. -/
def pyStrip (cs s : String) : String :=
  String.mk (((s.data.dropWhile (pyCharIn cs.data)).reverse.dropWhile (pyCharIn cs.data)).reverse)

/-- Python str.lower restricted to ASCII, as Char.toLower. -/
def pyToLower (s : String) : String := String.mk (s.data.map Char.toLower)

/-- Line 74: str(pangolin).split(".")[0].lower().strip("v"). -/
def pangolinNorm (v : String) : String :=
  pyStrip "v" (pyToLower ((pySplit '.' v).headD v))

/-- Stated from the words of the claim, for comparison: the text before
the first dot, lower-cased, with a single leading v stripped. -/
def pangolinNormSpecLeading (v : String) : String :=
  match (pyToLower ((pySplit '.' v).headD v)).data with
  | c :: cs =>
    if c = 'v' then String.mk cs else String.mk (c :: cs)
  | [] => String.mk []

/-- Outcome of the version check of lines 75-80: a directly supported
major version is used as is, anything else goes to the external
release-listing lookup. -/
inductive PangolinResolution where
  | direct (v : String)
  | lookupAttempted
deriving DecidableEq

/-- Lines 75-80: assert the normalized version is 3 or 4; on assertion
failure, attempt the network lookup of the latest release. -/
def resolvePangolin (v : String) : PangolinResolution :=
  if pangolinNorm v = "3" ∨ pangolinNorm v = "4" then .direct (pangolinNorm v)
  else .lookupAttempted

/-- C8 counterexample: the code strips v from both ends (Python
str.strip), not only a leading v; on the input 3v.1 the code yields 3
while the normalization described by the claim yields 3v. -/
theorem pangolinNorm_not_leading_only :
    pangolinNorm "3v.1" ≠ pangolinNormSpecLeading "3v.1" ∧
      pangolinNorm "3v.1" = "3" ∧ pangolinNormSpecLeading "3v.1" = "3v" := by
  refine ⟨by decide, by decide, by decide⟩

/-- A from-the-spec-words reformulation of stripping every v at one end:
remove leading v characters one at a time. -/
def stripVFront : List Char → List Char
  | [] => []
  | c :: cs => if c = 'v' then stripVFront cs else c :: cs

/-- The amended normalization: text before the first dot, lower-cased,
with all leading and all trailing v characters removed. -/
def pangolinNormBothEnds (v : String) : String :=
  String.mk ((stripVFront ((stripVFront (pyToLower ((pySplit '.' v).headD v)).data).reverse)).reverse)

theorem stripVFront_eq_dropWhile :
    ∀ l : List Char, stripVFront l = l.dropWhile (pyCharIn ("v" : String).data) := by
  have hv : ("v" : String).data = ['v'] := rfl
  intro l
  induction l with
  | nil => rfl
  | cons c cs ih =>
    rw [hv] at ih ⊢
    by_cases h : c = 'v'
    · subst h
      rw [stripVFront, if_pos rfl, List.dropWhile_cons, if_pos (by simp [pyCharIn]), ih]
    · rw [stripVFront, if_neg h, List.dropWhile_cons, if_neg (by simp [pyCharIn, h])]

/-- C8 amended: the normalization equals the text before the first dot,
lower-cased, with all leading and trailing v characters stripped; the
version string v3.1.2 resolves directly to 3 with no lookup, and v99.0
falls through to the external release lookup. -/
theorem pangolinNorm_amended :
    (∀ s, pangolinNorm s = pangolinNormBothEnds s) ∧
      resolvePangolin "v3.1.2" = .direct "3" ∧
      resolvePangolin "v99.0" = .lookupAttempted := by
  refine ⟨?_, by decide, by decide⟩
  intro s
  unfold pangolinNorm pangolinNormBothEnds pyStrip
  rw [stripVFront_eq_dropWhile, stripVFront_eq_dropWhile]

/-! ### config.yaml generation (set_up lines 104-146) -/

/-- A single quote character, as Python wraps most config values. -/
def pyQuote : String := "\x27"

/-- Python repr of a string without escapes, as produced inside
str(list) for the sample names. -/
def pyStrRepr (s : String) : String := pyQuote ++ s ++ pyQuote

/-- Comma-space separated concatenation, as inside Python str(list). -/
def pyCommaSep : List String → String
  | [] => ""
  | [x] => x
  | x :: y :: rest => x ++ ", " ++ pyCommaSep (y :: rest)

/-- Python str of a list of strings: the rendering of f-string
interpolation of neg_list on line 119. -/
def pyListRepr (xs : List String) : String :=
  "[" ++ pyCommaSep (xs.map pyStrRepr) ++ "]"

/-- The 19 keys of the config dict, in insertion order (lines 104-123). -/
def configKeys : List String :=
  ["data_root", "run_name", "amplicon_bed", "reference_genome", "platform",
   "primer_bed", "bed_type", "offset", "completeness_threshold", "bam_pattern",
   "primer_trimmed_bam_pattern", "consensus_pattern", "variants_pattern",
   "assign_lineages", "tree_include_consensus", "negative_control_samples",
   "mutation_set", "output_directory", "pangolin_version"]

/-- The iVar variants pattern value (line 116). -/
def tsvPattern : String := pyQuote ++ "{data_root}/{sample}.variants.tsv" ++ pyQuote

/-- The FreeBayes variants pattern value (line 140). -/
def vcfPattern : String := pyQuote ++ "{data_root}/{sample}.variants.vcf" ++ pyQuote

/-- The config dict literal of lines 104-123, with every value rendered
as the f-string write of line 146 renders it (ints and floats through
their decimal notation). -/
def configBase (data_root result_dir amplicon_bed reference_genome primer_bed
    phylo_include_seqs pangolin : String) (neg_list : List String) :
    List (String × String) :=
  [("data_root", pyQuote ++ data_root ++ pyQuote),
   ("run_name", pyQuote ++ result_dir ++ pyQuote),
   ("amplicon_bed", pyQuote ++ amplicon_bed ++ pyQuote),
   ("reference_genome", pyQuote ++ reference_genome ++ pyQuote),
   ("platform", "illumina"),
   ("primer_bed", pyQuote ++ primer_bed ++ pyQuote),
   ("bed_type", "unique_amplicons"),
   ("offset", "0"),
   ("completeness_threshold", "0.9"),
   ("bam_pattern", pyQuote ++ "{data_root}/{sample}.bam" ++ pyQuote),
   ("primer_trimmed_bam_pattern", pyQuote ++ "{data_root}/{sample}.mapped.primertrimmed.sorted.bam" ++ pyQuote),
   ("consensus_pattern", pyQuote ++ "{data_root}/{sample}.consensus.fasta" ++ pyQuote),
   ("variants_pattern", tsvPattern),
   ("assign_lineages", "true"),
   ("tree_include_consensus", pyQuote ++ phylo_include_seqs ++ pyQuote),
   ("negative_control_samples", pyListRepr neg_list),
   ("mutation_set", "spike_mutations"),
   ("output_directory", result_dir ++ "_ncovresults"),
   ("pangolin_version", pyQuote ++ pangolin ++ pyQuote)]

/-- Lines 138-142: when freebayes_run is set, the variants_pattern entry
is overwritten in place (a Python dict update keeps the insertion
position of an existing key). -/
def configEntries (data_root result_dir amplicon_bed reference_genome primer_bed
    phylo_include_seqs pangolin : String) (neg_list : List String)
    (freebayes_run : Bool) : List (String × String) :=
  if freebayes_run then
    (configBase data_root result_dir amplicon_bed reference_genome primer_bed
      phylo_include_seqs pangolin neg_list).map
      (fun kv => if kv.1 = "variants_pattern" then (kv.1, vcfPattern) else kv)
  else
    configBase data_root result_dir amplicon_bed reference_genome primer_bed
      phylo_include_seqs pangolin neg_list

/-- Serialization of lines 144-146: one key colon value line per entry,
in order. -/
def writeConfig (cfg : List (String × String)) : String :=
  String.join (cfg.map (fun kv => kv.1 ++ ": " ++ kv.2 ++ "\n"))

/-- Association-list lookup for config entries. -/
def cfgLookup : List (String × String) → String → Option String
  | [], _ => none
  | (k, v) :: rest, key => if key = k then some v else cfgLookup rest key

/-- C6: the generated config has exactly the 19 fixed keys, once each, in
insertion order; negative_control_samples renders as the Python list
literal of the detected set, and variants_pattern is the .vcf form
exactly when the FreeBayes mode ran and the .tsv form otherwise; the
file is one key colon value line per entry. -/
theorem configEntries_spec (data_root result_dir amplicon_bed reference_genome
    primer_bed phylo_include_seqs pangolin : String) (neg_list : List String)
    (freebayes_run : Bool) :
    ((configEntries data_root result_dir amplicon_bed reference_genome primer_bed
        phylo_include_seqs pangolin neg_list freebayes_run).map Prod.fst = configKeys) ∧
      configKeys.Nodup ∧
      cfgLookup (configEntries data_root result_dir amplicon_bed reference_genome
          primer_bed phylo_include_seqs pangolin neg_list freebayes_run)
          "negative_control_samples" = some (pyListRepr neg_list) ∧
      cfgLookup (configEntries data_root result_dir amplicon_bed reference_genome
          primer_bed phylo_include_seqs pangolin neg_list freebayes_run)
          "variants_pattern" =
        some (if freebayes_run then vcfPattern else tsvPattern) ∧
      writeConfig (configEntries data_root result_dir amplicon_bed reference_genome
          primer_bed phylo_include_seqs pangolin neg_list freebayes_run) =
        String.join ((configEntries data_root result_dir amplicon_bed
            reference_genome primer_bed phylo_include_seqs pangolin neg_list
            freebayes_run).map (fun kv => kv.1 ++ ": " ++ kv.2 ++ "\n")) := by
  cases freebayes_run with
  | false => exact ⟨by rfl, by decide, by rfl, by rfl, by rfl⟩
  | true => exact ⟨by rfl, by decide, by rfl, by rfl, by rfl⟩

/-! ### BAM linking inside set_up (lines 125-136) -/

/-- Destination path of an alignment BAM link (line 128). -/
def bamLnPath (root bam : String) : String :=
  root ++ "/" ++ firstSeg bam ++ ".bam"

/-- Evaluation of the guard of line 129, Python semantics: the or
short-circuits, so the name replace is only evaluated when the
destination path already exists; looking up an unbound name raises
NameError. -/
def evalReplaceGuard (replaceVar : Option Bool) (lnExists : Bool) : Except Err Bool :=
  if !lnExists then .ok true
  else
    match replaceVar with
    | some b => .ok b
    | none => .error (.nameError "replace")

/-- set_up binds no local (and the module no global) named replace; the
name only exists as a parameter of link_ivar. -/
def setUpReplaceVar : Option Bool := none

/-- The alignment-BAM loop of lines 126-130 (the primer-trimmed loop of
lines 132-136 is the same code with a different suffix). -/
def linkBamLoop (replaceVar : Option Bool) (root : String) :
    List String → FS → Except Err FS
  | [], fs => .ok fs
  | bam :: rest, fs =>
    match evalReplaceGuard replaceVar (pathExists fs (bamLnPath root bam)) with
    | .error e => .error e
    | .ok b =>
      match (if b then osLink fs bam (bamLnPath root bam) else .ok fs) with
      | .error e => .error e
      | .ok fs2 => linkBamLoop replaceVar root rest fs2

/-- C10: with the unbound replace of set_up, the BAM linking guard raises
NameError whenever the destination link path already exists (first
conjunct, and concretely when two input paths share a first path
segment, third conjunct), and the loop only succeeds because the data
directory was just recreated, so no destination paths pre-exist (second
conjunct). -/
theorem linkBam_nameError_and_fresh_success :
    (∀ (fs : FS) (root bam : String) (rest : List String),
      pathExists fs (bamLnPath root bam) = true →
      linkBamLoop setUpReplaceVar root (bam :: rest) fs = .error (.nameError "replace")) ∧
    (∀ (root : String) (bams : List String) (fs : FS),
      (∀ b, b ∈ bams → pathExists fs (bamLnPath root b) = false) →
      (∀ b, b ∈ bams → pathExists fs b = true) →
      (bams.map (fun b => bamLnPath root b)).Nodup →
      ∃ fs2, linkBamLoop setUpReplaceVar root bams fs = .ok fs2) ∧
    linkBamLoop setUpReplaceVar "data" ["A/x.bam", "A/y.bam"]
        [("A/x.bam", "s1"), ("A/y.bam", "s2")] = .error (.nameError "replace") := by
  refine ⟨?_, ?_, by decide⟩
  · intro fs root bam rest h
    rw [linkBamLoop, h]
    rfl
  · intro root bams
    induction bams with
    | nil => intro fs _ _ _; exact ⟨fs, rfl⟩
    | cons a rest ih =>
      intro fs h1 h2 h3
      have ha : pathExists fs (bamLnPath root a) = false := h1 a (List.mem_cons_self ..)
      have hsrc : pathExists fs a = true := h2 a (List.mem_cons_self ..)
      rcases Option.isSome_iff_exists.mp hsrc with ⟨c, hc⟩
      have hlink : osLink fs a (bamLnPath root a) = .ok ((bamLnPath root a, c) :: fs) := by
        unfold osLink
        rw [ha, hc]
        rfl
      have hnodup := h3
      rw [List.map_cons, List.nodup_cons] at hnodup
      rcases ih ((bamLnPath root a, c) :: fs)
          (fun b hb => by
            rw [← Bool.not_eq_true]
            intro habs
            rcases (pathExists_cons _ _ _ _).mp habs with he | he
            · exact hnodup.1 (he ▸ List.mem_map_of_mem _ hb)
            · rw [h1 b (List.mem_cons_of_mem _ hb)] at he; cases he)
          (fun b hb => fsLe_cons _ _ _ b (h2 b (List.mem_cons_of_mem _ hb)))
          hnodup.2 with ⟨fs2, hfs2⟩
      refine ⟨fs2, ?_⟩
      rw [linkBamLoop]
      rw [show evalReplaceGuard setUpReplaceVar (pathExists fs (bamLnPath root a)) = .ok true by rw [ha]; rfl]
      simp [hlink, hfs2]

/-- Witness for C10: a pre-existing destination makes the guard raise
NameError; a fresh directory with distinct samples succeeds. -/
theorem linkBam_nameError_witness :
    linkBamLoop setUpReplaceVar "data" ["A/x.bam"]
        [("data/A.bam", "c"), ("A/x.bam", "s")] = .error (.nameError "replace") ∧
      ∃ fs2, linkBamLoop setUpReplaceVar "data" ["A/x.bam", "B/y.bam"]
          [("A/x.bam", "s1"), ("B/y.bam", "s2")] = .ok fs2 :=
  ⟨linkBam_nameError_and_fresh_success.1 [("data/A.bam", "c"), ("A/x.bam", "s")]
      "data" "A/x.bam" [] (by decide),
    linkBam_nameError_and_fresh_success.2.1 "data" ["A/x.bam", "B/y.bam"]
      [("A/x.bam", "s1"), ("B/y.bam", "s2")] (by decide) (by decide) (by decide)⟩

/-! ### Result relocation (move, lines 153-184) -/

/-- Observable events of move: a completed copy, a per-file report from
the IOError handler, a per-category report for a missing source
subdirectory. -/
inductive MoveEvent where
  | copied (src dst : String)
  | missingFile (name : String)
  | missingDir (name : String)
deriving DecidableEq

/-- os.path.exists over a plain set of paths (the relocation step never
reads file contents, so its filesystem is just the list of existing
paths, files and directories alike). -/
def pathMem : List String → String → Bool
  | [], _ => false
  | q :: qs, p => if p = q then true else pathMem qs p

/-- The plot suffixes of line 155. -/
def plotExts : List String :=
  ["_amplicon_coverage_heatmap.pdf", "_amplicon_covered_fraction.pdf",
   "_depth_by_position.pdf", "_tree_snps.pdf"]

/-- The single lineage report suffix of lines 166-170. -/
def lineageExts : List String := ["_lineage_report.csv"]

/-- The QC-analysis suffixes of lines 175-176. -/
def qcExts : List String :=
  ["_aligned-delim.fasta.log", "_aligned-delim.iqtree.log", "_aligned.fasta",
   "_aligned.fasta.insertions.csv", "_aligned.fasta.log", "_alleles.tsv",
   "_tree.nwk", "_tree_raw.nwk", "_consensus.fasta"]

/-- One category of move: for each suffix, glob the default-named source
file (a literal pattern: it matches exactly when the file exists, and a
missing source therefore produces no iteration at all); a found file is
copied unless the copy raises IOError, which happens when the
destination subdirectory does not exist and which is caught and reported
as a missing file. -/
def moveCat (srcDir destDir pfx : String) :
    List String → List String → List String × List MoveEvent
  | [], paths => (paths, [])
  | e :: rest, paths =>
    if pathMem paths (srcDir ++ "/default" ++ e) then
      if pathMem paths destDir then
        let r := moveCat srcDir destDir pfx rest ((destDir ++ "/" ++ pfx ++ e) :: paths)
        (r.1, MoveEvent.copied (srcDir ++ "/default" ++ e) (destDir ++ "/" ++ pfx ++ e) :: r.2)
      else
        let r := moveCat srcDir destDir pfx rest paths
        (r.1, MoveEvent.missingFile (pfx ++ e) :: r.2)
    else moveCat srcDir destDir pfx rest paths

/-- A category guarded by the existence check on the source output
subdirectory (lines 154, 165, 174): a missing subdirectory is reported
and the category is skipped. -/
def moveCategory (srcDir destDir pfx dirName : String) (exts : List String)
    (paths : List String) : List String × List MoveEvent :=
  if pathMem paths srcDir then moveCat srcDir destDir pfx exts paths
  else (paths, [MoveEvent.missingDir dirName])

/-- move(cwd, dest, prefix): the plots, lineages and qc_analysis
categories, in order. -/
def move (cwd dest pfx : String) (paths : List String) :
    List String × List MoveEvent :=
  let r1 := moveCategory (cwd ++ "/ncov-tools/plots") (dest ++ "/plots") pfx
    "plots" plotExts paths
  let r2 := moveCategory (cwd ++ "/ncov-tools/lineages") (dest ++ "/lineages") pfx
    "lineages" lineageExts r1.1
  let r3 := moveCategory (cwd ++ "/ncov-tools/qc_analysis") (dest ++ "/qc_analysis") pfx
    "qc_analysis" qcExts r2.1
  (r3.1, r1.2 ++ r2.2 ++ r3.2)

/-- C9 counterexample: all three source subdirectories and all three
destination subdirectories exist but no source file does; the run emits
no event at all, so a missing source file is not reported (glob over its
literal pattern matches nothing and the loop body never runs). -/
theorem move_silent_on_missing_source_file :
    (move "cwd" "dest" "run"
        ["cwd/ncov-tools/plots", "cwd/ncov-tools/lineages", "cwd/ncov-tools/qc_analysis",
         "dest/plots", "dest/lineages", "dest/qc_analysis"]).2 = [] ∧
      pathMem ["cwd/ncov-tools/plots", "cwd/ncov-tools/lineages",
        "cwd/ncov-tools/qc_analysis", "dest/plots", "dest/lineages",
        "dest/qc_analysis"] "cwd/ncov-tools/plots/default_tree_snps.pdf" = false := by
  refine ⟨by decide, by decide⟩

theorem moveCat_dest_missing (srcDir destDir pfx : String) :
    ∀ (exts paths : List String), pathMem paths destDir = false →
      moveCat srcDir destDir pfx exts paths =
        (paths, (exts.filter (fun e => pathMem paths (srcDir ++ "/default" ++ e))).map
          (fun e => MoveEvent.missingFile (pfx ++ e))) := by
  intro exts
  induction exts with
  | nil => intro paths h; rfl
  | cons e rest ih =>
    intro paths h
    rw [moveCat]
    by_cases hsrc : pathMem paths (srcDir ++ "/default" ++ e) = true
    · rw [if_pos hsrc, if_neg (by simp [h]), ih paths h]
      simp [List.filter_cons, hsrc]
    · rw [if_neg hsrc, ih paths h]
      simp only [List.filter_cons]
      rw [if_neg (by simpa using hsrc)]

/-- C9 amended: a source file that does not exist is skipped silently
(glob matches nothing, so it is neither copied nor reported and nothing
raises); when the destination subdirectory is missing, each existing
source file leads to a caught IOError and is reported as a missing file;
a missing source output subdirectory is reported instead of the category
running; in every case the later categories are still attempted. -/
theorem move_report_behavior (cwd dest pfx : String) (paths : List String) :
    (pathMem paths (cwd ++ "/ncov-tools/plots") = true →
      pathMem paths (dest ++ "/plots") = false →
      (move cwd dest pfx paths).2 =
        ((plotExts.filter (fun e =>
            pathMem paths (cwd ++ "/ncov-tools/plots" ++ "/default" ++ e))).map
          (fun e => MoveEvent.missingFile (pfx ++ e))) ++
          (moveCategory (cwd ++ "/ncov-tools/lineages") (dest ++ "/lineages") pfx
            "lineages" lineageExts paths).2 ++
          (moveCategory (cwd ++ "/ncov-tools/qc_analysis") (dest ++ "/qc_analysis") pfx
            "qc_analysis" qcExts
            (moveCategory (cwd ++ "/ncov-tools/lineages") (dest ++ "/lineages") pfx
              "lineages" lineageExts paths).1).2) ∧
    (pathMem paths (cwd ++ "/ncov-tools/plots") = false →
      (move cwd dest pfx paths).2 =
        MoveEvent.missingDir "plots" ::
          ((moveCategory (cwd ++ "/ncov-tools/lineages") (dest ++ "/lineages") pfx
              "lineages" lineageExts paths).2 ++
            (moveCategory (cwd ++ "/ncov-tools/qc_analysis") (dest ++ "/qc_analysis") pfx
              "qc_analysis" qcExts
              (moveCategory (cwd ++ "/ncov-tools/lineages") (dest ++ "/lineages") pfx
                "lineages" lineageExts paths).1).2)) := by
  constructor
  · intro hsrc hdst
    have hcat := moveCat_dest_missing (cwd ++ "/ncov-tools/plots") (dest ++ "/plots")
      pfx plotExts paths hdst
    have h1 : moveCategory (cwd ++ "/ncov-tools/plots") (dest ++ "/plots") pfx
        "plots" plotExts paths =
        (paths, (plotExts.filter (fun e =>
            pathMem paths (cwd ++ "/ncov-tools/plots" ++ "/default" ++ e))).map
          (fun e => MoveEvent.missingFile (pfx ++ e))) := by
      unfold moveCategory
      rw [if_pos hsrc, hcat]
    simp only [move, h1]
  · intro hsrc
    have h1 : moveCategory (cwd ++ "/ncov-tools/plots") (dest ++ "/plots") pfx
        "plots" plotExts paths = (paths, [MoveEvent.missingDir "plots"]) := by
      unfold moveCategory
      rw [if_neg (by simp [hsrc])]
    simp only [move, h1]
    simp

/-- Witness for the amended C9 statement: the plots source directory
holds one of the four plot files and the destination lacks a plots
subdirectory; only the existing file is reported, and the two later
categories are still attempted (their source directories are missing, so
they are reported as such). -/
theorem move_report_behavior_witness :
    (move "cwd" "dest" "run"
        ["cwd/ncov-tools/plots", "cwd/ncov-tools/plots/default_tree_snps.pdf"]).2 =
      [MoveEvent.missingFile "run_tree_snps.pdf", MoveEvent.missingDir "lineages",
        MoveEvent.missingDir "qc_analysis"] := by
  have h := (move_report_behavior "cwd" "dest" "run"
    ["cwd/ncov-tools/plots", "cwd/ncov-tools/plots/default_tree_snps.pdf"]).1
    (by decide) (by decide)
  rw [h]
  decide
